import Mathlib

/-!
# Verification of the sccor cooperative-multitasking kernel

A shallow embedding of the coroutine kernel in `src/code/mt.cpp` together
with the peripheral diagnostic collaborators (`kbhit.cpp`, `histo.cpp`,
`histospt.cpp`), and proofs of the specification claims about them.

Machine words are modelled as `Nat` bit patterns (the code only moves
argument and address words around; the descriptor word is the one place
where bit-level arithmetic matters and it is modelled with the same
shift/or/and operations the source uses).  The coroutine storage area
(CSA) is modelled as the list of words in `[csa, csavail)`, bottom first,
so `csavail - csa` is the length of the list.  Pointer-valued quantities
that participate in signed pointer arithmetic (`coresume`'s frame-pointer
computation) are modelled as `Int` in units of 8-byte longs.
-/

namespace Sccor

/-- The two target ABIs selected at build time in `mt.cpp`:
System V AMD64 (`__APPLE__`) and Microsoft x64 (`CYGWIN`). -/
inductive Platform where
  | sysv  : Platform
  | win64 : Platform
deriving DecidableEq, Repr

/-- `IN_REGISTERS_COUNT`: 6 argument registers on System V, 4 on Windows x64. -/
def inRegistersCount : Platform → Nat
  | .sysv => 6
  | .win64 => 4

/-- Number of callee-saved register placeholder slots a spawn pushes at the
bottom of an image: `rbx` on System V; `rbx`, `rdi`, `rsi` on Cygwin
(the three `*csavail++ = 0` placeholder stores in `invoke`/`cobegin`). -/
def calleeSlots : Platform → Nat
  | .sysv => 1
  | .win64 => 3

/-- Shadow-space words pushed by a spawn: none on System V, four on Cygwin. -/
def shadowWords : Platform → Nat
  | .sysv => 0
  | .win64 => 4

/-- `LONG_COUNT` from the size computation in `invoke`/`cobegin`. -/
def longCount : Platform → Nat
  | .sysv => 2
  | .win64 => 4

/-- `CLEANUP_OFFSET`: bytes into `cleanup` used as the synthetic return
address (9 on macOS, 13 on Cygwin). -/
def cleanupOffset : Platform → Nat
  | .sysv => 9
  | .win64 => 13

/-- `FILLER_VALUE` (`0xffffffffffffffff`), the padding word stored in the CSA. -/
def FILLER_VALUE : Nat := 0xffffffffffffffff

/-- `SHADOW_SPACE_VALUE` (`0x5555555555555555`), the Cygwin shadow-space sentinel. -/
def SHADOW_SPACE_VALUE : Nat := 0x5555555555555555

/-- Number of 16-byte-alignment filler words a spawn appends after the
argument words, read off the `switch (argCount % 2)` / `argCount == 0`
branches of `invoke` and `cobegin`: two fillers for zero arguments, one for
an odd count, none for a positive even count. -/
def fillerWords (argCount : Nat) : Nat :=
  if argCount = 0 then 2 else if argCount % 2 = 1 then 1 else 0

/-- The image a spawn (`invoke`, or one iteration of `cobegin`'s loop)
writes into the CSA, bottom word first: callee-saved register placeholders,
the ring base (initial `rbp`), the coroutine entry address, the synthetic
return address into `cleanup`, the Cygwin shadow-space sentinels, the
argument words, and the alignment fillers.  The trailing descriptor word is
not part of the image. -/
def spawnImage (plat : Platform) (base entry cleanupAddr : Nat)
    (args : List Nat) : List Nat :=
  List.replicate (calleeSlots plat) 0
    ++ [base, entry, cleanupAddr + cleanupOffset plat]
    ++ List.replicate (shadowWords plat) SHADOW_SPACE_VALUE
    ++ args
    ++ List.replicate (fillerWords args.length) FILLER_VALUE

/-- The image word-count as the source computes it:
`argCount + fillerCount + (sizeof(long)*LONG_COUNT + sizeof(COROUTINE)*2) / sizeof(long)`,
where on Cygwin `fillerCount` also counts the four shadow-space words. -/
def spawnSizeCode (plat : Platform) (argCount : Nat) : Nat :=
  argCount + (shadowWords plat + fillerWords argCount)
    + (8 * longCount plat + 8 * 2) / 8

/-- The descriptor word a spawn stores above the image:
`coroutineSize |= ((long)(0x80 | argCount) << 56)`. -/
def descriptorWord (argCount size : Nat) : Nat :=
  ((0x80 ||| argCount) <<< 56) ||| size

/-- Everything one spawn appends to the CSA: the image followed by its
descriptor word. -/
def spawnWords (plat : Platform) (base entry cleanupAddr : Nat)
    (args : List Nat) : List Nat :=
  spawnImage plat base entry cleanupAddr args
    ++ [descriptorWord args.length (spawnSizeCode plat args.length)]

/-! ### popCoroutine -/

/-- The register-loading fall-through `switch (mark)` in `popCoroutine`:
case `m` loads the `m`-th ABI argument register from `*p` and decrements
`p` before falling through to case `m - 1`.  The result lists the loaded
values in calling-convention order (System V: rdi, rsi, rdx, rcx, r8, r9;
Windows x64: rcx, rdx, r8, r9), i.e. the first list element is the value
the entry point sees as its first parameter. -/
def loadRegs (C : List Nat) : Nat → Nat → List Nat
  | _, 0 => []
  | p, m + 1 => loadRegs C (p - 1) m ++ [C.getD p 0]

/-- `memmove(l + dest, seg, ...)`: overwrite `seg.length` words of `l`
starting at index `dest` (in-bounds usage only). -/
def writeSeg (l : List Nat) (dest : Nat) (seg : List Nat) : List Nat :=
  l.take dest ++ seg ++ l.drop (dest + seg.length)

/-- Where `popCoroutine` memmoves the excess (non-register) parameters on
the restored stack, as a word offset from `baseMinusSize`:
`baseMinusSize + 4` on System V (immediately above the `cleanup` return
slot) and `baseMinusSize + 6 + 4` on Cygwin (immediately above the
shadow space). -/
def excessDest : Platform → Nat
  | .sysv => 4
  | .win64 => 6 + 4

/-- What one `popCoroutine` run produces. `regs` are the primed ABI
argument registers in calling-convention order (empty for a non-virgin
image); `stack` is the word run materialized at
`[base - size - 2, base - 2)` after the excess-parameter memmove; `bot` is
the new `csavail` as an index from the CSA base; `mark0` is the decoded
argument count (0 for a non-virgin image). -/
structure PopResult where
  regs : List Nat
  stack : List Nat
  bot : Nat
  size : Nat
  mark0 : Nat
deriving Repr, DecidableEq

/-- `popCoroutine` on a CSA whose words are `C`: pop the descriptor, decode
the virgin mark and the image word-count, copy the image out, and for a
virgin image skip the alignment filler, relocate the excess parameters
above the register allotment, and prime the argument registers. -/
def popCoroutineModel (plat : Platform) (C : List Nat) : PopResult :=
  let n := C.length - 1                       -- csavail after *--csavail
  let desc := C.getD n 0                      -- _size = *csavail
  let virgin := 2 ^ 63 ≤ desc                 -- _size < 0 (signed)
  let mark0 := if virgin then (desc >>> 56) &&& 0x7F else 0
  let size := if virgin then desc &&& 0xffffffffffffff else desc
  let bot := n - size                         -- csavail -= _size
  let image := (C.drop bot).take size         -- memcpy to base - size - 2
  if 0 < mark0 then
    let p1 := if mark0 % 2 = 1 then n - 2 else n - 1   -- skip filler
    let r := inRegistersCount plat
    let excess := mark0 - r                   -- int8_t excessCount
    let mark := if r < mark0 then r else mark0
    let p2 := if r < mark0 then p1 - excess else p1
    let stack :=
      if r < mark0 then
        writeSeg image (excessDest plat) ((C.drop (p1 - excess + 1)).take excess)
      else image
    ⟨loadRegs C p2 mark, stack, bot, size, mark0⟩
  else
    ⟨[], image, bot, size, mark0⟩

/-- The words of a spawn image below the argument area: the callee-saved
placeholders, base, entry, `cleanup` return address, and shadow space. -/
def spawnPre (plat : Platform) (base entry cleanupAddr : Nat) : List Nat :=
  List.replicate (calleeSlots plat) 0
    ++ [base, entry, cleanupAddr + cleanupOffset plat]
    ++ List.replicate (shadowWords plat) SHADOW_SPACE_VALUE

/-! ### The ring-scheduler state

The module-level state of `mt.cpp` that the claims are about: the live
coroutine's image (the words of the stack run `[base - size - 2, base - 2)`
that a yield would store), the CSA contents `[csa, csavail)` bottom first,
and `coroutineCount`. -/

structure RingState where
  live : List Nat
  csaWords : List Nat
  count : Nat
deriving Repr, DecidableEq

/-- `coresume`: no-op when `coroutineCount <= 1`; otherwise memmove every
stored image up by `_size + 1` words, store the yielder's image at the
bottom of the CSA with a flag-byte-zero descriptor (`csa[_size] = _size`),
and pop the top coroutine back onto the live stack.  `coroutineCount` is
not touched. -/
def coresumeModel (plat : Platform) (s : RingState) : RingState :=
  if 1 < s.count then
    let C1 := s.live ++ [s.live.length] ++ s.csaWords
    let r := popCoroutineModel plat C1
    ⟨r.stack, C1.take r.bot, s.count⟩
  else s

/-- `invoke`: append a virgin image and its descriptor to the CSA and
increment `coroutineCount`; no task switch. -/
def invokeModel (plat : Platform) (b e cl : Nat) (args : List Nat)
    (s : RingState) : RingState :=
  ⟨s.live, s.csaWords ++ spawnWords plat b e cl args, s.count + 1⟩

/-- `cleanup`: entered when a coroutine entry-point returns.  Decrement
`coroutineCount`; if it reaches zero return to the host through `cobegin`'s
epilogue (no live coroutine remains), otherwise pop the next coroutine from
the CSA. -/
def cleanupModel (plat : Platform) (s : RingState) : RingState :=
  if s.count - 1 = 0 then ⟨[], s.csaWords, 0⟩
  else
    let r := popCoroutineModel plat s.csaWords
    ⟨r.stack, s.csaWords.take r.bot, s.count - 1⟩

/-- `getCoroutineCount`: returns `coroutineCount`. -/
def getCoroutineCountModel (s : RingState) : Nat := s.count

/-- The CSA contents after `cobegin`'s spawn loop: one block per
`(entry, args)` pair, pushed in argument order. -/
def cobeginCsa (plat : Platform) (b cl : Nat)
    (specs : List (Nat × List Nat)) : List Nat :=
  (specs.map (fun t => spawnWords plat b t.1 cl t.2)).flatten

/-- The ring state at the moment `cobegin` transfers control to the first
coroutine: `n` blocks pushed, `coroutineCount = n`, and (when `n > 0`) the
top block popped onto the live stack. -/
def cobeginStart (plat : Platform) (b cl : Nat)
    (specs : List (Nat × List Nat)) : RingState :=
  let C := cobeginCsa plat b cl specs
  if specs.length = 0 then ⟨[], C, 0⟩
  else
    let r := popCoroutineModel plat C
    ⟨r.stack, C.take r.bot, specs.length⟩

/-- The entry-address word of the live coroutine's image (the word the
spawn stored just above the saved frame-pointer slot). -/
def entryWordOf (plat : Platform) (s : RingState) : Nat :=
  s.live.getD (calleeSlots plat + 1) 0

/-- Run `k` coroutines that each return immediately without yielding:
record the entry word of the live coroutine, then let it return into
`cleanup`. -/
def runImmediateTrace (plat : Platform) : RingState → Nat → List Nat
  | _, 0 => []
  | s, k + 1 => entryWordOf plat s :: runImmediateTrace plat (cleanupModel plat s) k

/-- The ring state after `k` coroutines have returned immediately. -/
def runImmediateState (plat : Platform) : RingState → Nat → RingState
  | s, 0 => s
  | s, k + 1 => runImmediateState plat (cleanupModel plat s) k

/-- The stack run `popCoroutine` materializes when it restores a virgin
spawn block (after the excess-parameter relocation, if any). -/
def spawnStack (plat : Platform) (b e cl : Nat) (args : List Nat) : List Nat :=
  if inRegistersCount plat < args.length then
    writeSeg (spawnImage plat b e cl args) (excessDest plat)
      (args.drop (inRegistersCount plat))
  else spawnImage plat b e cl args

/-! ### CSA well-formedness: parsing the arena into blocks

`parseBlocks` walks the CSA from the top exactly the way `popCoroutine`
and `cleanup` read it: take the descriptor word at `csavail - 1`, decode
the image word-count (masking the flag byte when the sign bit is set), and
step down over the block.  It returns the `(image, descriptor)` pairs
top-first, or `none` if some descriptor claims more words than remain. -/

/-- The image word-count encoded in a descriptor, as the kernel decodes
it: masked when the virgin bit is set, verbatim otherwise. -/
def sizeOfDesc (d : Nat) : Nat :=
  if 2 ^ 63 ≤ d then d &&& 0xffffffffffffff else d

def parseBlocks (C : List Nat) : Option (List (List Nat × Nat)) :=
  if C.length = 0 then some []
  else
    let sz := sizeOfDesc (C.getD (C.length - 1) 0)
    if h : sz + 1 ≤ C.length then
      match parseBlocks (C.take (C.length - (sz + 1))) with
      | some bs =>
          some (((C.take (C.length - 1)).drop (C.length - 1 - sz),
            C.getD (C.length - 1) 0) :: bs)
      | none => none
    else none
termination_by C.length
decreasing_by simp only [List.length_take]; omega

/-- The two shapes of block that can live in a reachable CSA: a
previously-executed image whose descriptor is its bare word-count, or a
virgin block written by a spawn. -/
def BlockOK (plat : Platform) (p : List Nat × Nat) : Prop :=
  (p.2 = p.1.length ∧ p.1.length < 2 ^ 56) ∨
  (∃ b e cl args, args.length < 128 ∧ p.1 = spawnImage plat b e cl args ∧
    p.2 = descriptorWord args.length (spawnSizeCode plat args.length))

/-- The kernel invariant carried across all reachable ring states: the
live image is storable (fits the descriptor's 56-bit size field), the CSA
parses into well-formed blocks, and `coroutineCount` is the block count
plus one. -/
def RingInv (plat : Platform) (s : RingState) : Prop :=
  s.live.length < 2 ^ 56 ∧
  ∃ bs, parseBlocks s.csaWords = some bs ∧ s.count = bs.length + 1 ∧
    ∀ p ∈ bs, BlockOK plat p

/-- Ring states reachable while a `cobegin` ring is running: the state at
which `cobegin` hands control to its first coroutine, followed by any
sequence of `invoke`, `coresume`, and non-final `cleanup` steps (a
`cleanup` with `coroutineCount = 1` terminates the ring and returns to the
host). -/
inductive Reach (plat : Platform) : RingState → Prop where
  | start (b cl : Nat) (specs : List (Nat × List Nat)) (hne : specs ≠ [])
      (hargs : ∀ t ∈ specs, t.2.length < 128) :
      Reach plat (cobeginStart plat b cl specs)
  | invoke (s : RingState) (b e cl : Nat) (args : List Nat)
      (hargs : args.length < 128) (hs : Reach plat s) :
      Reach plat (invokeModel plat b e cl args s)
  | yield (s : RingState) (hs : Reach plat s) :
      Reach plat (coresumeModel plat s)
  | clean (s : RingState) (hs : Reach plat s) (hc : 1 < s.count) :
      Reach plat (cleanupModel plat s)

/-! ### coresume's frame-size arithmetic (claim C1)

`coresume` reads the yielder's frame pointer into `_BPX` (in units of
8-byte longs), adjusts it for the callee-saved slots its own prologue
pushed, and computes `_size = base - 2 - _BPX`.  The adjustment in the
source is `_BPX -= /*3*/ -1` on Cygwin and `_BPX -= 1` elsewhere. -/

/-- `_BPX` after the platform-specific adjustment in `coresume`. -/
def coresumeBPX (plat : Platform) (rbpLive : Int) : Int :=
  match plat with
  | .win64 => rbpLive - (-1)
  | .sysv => rbpLive - 1

/-- `_size = (base - 2 - _BPX)`: the word-count of the image `coresume`
saves for the yielder. -/
def coresumeSize (plat : Platform) (base rbpLive : Int) : Int :=
  base - 2 - coresumeBPX plat rbpLive

/-- Modelled from the spec (for comparison with the code): the claimed
word-count `(ring_base - 2) - (rbp_live - k)` where `k` is the number of
callee-saved register slots the yield primitive pushes below `rbp`:
1 on System V and 3 on Windows x64. -/
def specClaimK : Platform → Int
  | .sysv => 1
  | .win64 => 3

/-- Modelled from the spec: the image word-count as the claim states it. -/
def specCoresumeSize (plat : Platform) (base rbpLive : Int) : Int :=
  (base - 2) - (rbpLive - specClaimK plat)

/-! ### kbhit and TimeIntervalHistogram::tally (claim C9) -/

/-- Outcome of the `select` call in `kbhit`: `-1` (error), or a result
telling whether descriptor 0 (stdin) is in the read set. -/
inductive SelectResult where
  | err : SelectResult
  | ready (stdinSet : Bool) : SelectResult
deriving DecidableEq, Repr

/-- `kbhit`, together with the lines it writes to standard output: 0 on a
`select` error, 1 when a byte is pending on stdin, 0 otherwise.  No path
in `kbhit.cpp` contains an output call (the error branch is a bare
`return 0`), so the emitted-output component is `[]` for every outcome. -/
def kbhitModel : SelectResult → Int × List LogEvent
  | .err => (0, [])
  | .ready true => (1, [])
  | .ready false => (0, [])

/-- A `struct timeval` value. -/
structure Timeval where
  sec : Int
  usec : Int
deriving DecidableEq, Repr

/-- Outcome of a `gettimeofday` call: failure with an `errno`, or a
timestamp. -/
inductive GtodResult where
  | fail (errno : Int) : GtodResult
  | ok (t : Timeval) : GtodResult
deriving DecidableEq, Repr

/-- A line printed to standard output by `tally`'s failure path
(`"gettimeofday failed: errno is %i"`). -/
inductive LogEvent where
  | gettimeofdayFailed (errno : Int) : LogEvent
deriving DecidableEq, Repr

/-- The `TimeIntervalHistogram` state `tally` touches: the `firstTime`
latch, the two saved timevals, and the sequence of values passed to
`Histogram::Add` (each reduced mod 2^32 by the `(unsigned int)` cast). -/
structure TIHState where
  firstTime : Bool
  tvPrev : Timeval
  tvNext : Timeval
  added : List Int
deriving DecidableEq, Repr

/-- `TimeIntervalHistogram::tally`: on the first call just prime the
timer; afterwards read the clock, add the elapsed microseconds to the
histogram, and roll the timer forward.  A `gettimeofday` failure is
printed and otherwise ignored (the timeval keeps its previous contents and
execution continues). -/
def tally (g : GtodResult) (s : TIHState) : TIHState × List LogEvent :=
  if s.firstTime then
    match g with
    | .fail e => ({ s with firstTime := false }, [.gettimeofdayFailed e])
    | .ok t => ({ s with firstTime := false, tvPrev := t }, [])
  else
    let next := match g with
      | .fail _ => s.tvNext
      | .ok t => t
    let logs : List LogEvent := match g with
      | .fail e => [.gettimeofdayFailed e]
      | .ok _ => []
    let uDelta := (next.sec - s.tvPrev.sec) * 1000000
      + next.usec - s.tvPrev.usec
    (⟨s.firstTime, next, next, s.added ++ [uDelta % 4294967296]⟩, logs)

/-! ### Histogram::MeanValue (claim C10) -/

/-- The accumulator state `MeanValue` reads: the sample count `n` (an
`unsigned int`) and the running `summation` (a `double`, modelled as an
exact rational). -/
structure HistogramModel where
  n : Nat
  summation : ℚ
deriving DecidableEq

/-- The `int(n)` cast in `summation / int(n)`: two's-complement
reinterpretation of a 32-bit unsigned value. -/
def intCast32 (u : Nat) : Int :=
  if u < 2 ^ 31 then (u : Int) else (u : Int) - 2 ^ 32

/-- `Histogram::MeanValue`: `summation / int(n)` when `n > 0`, else
`0.0`. -/
def MeanValue (h : HistogramModel) : ℚ :=
  if 0 < h.n then h.summation / ((intCast32 h.n : Int) : ℚ) else 0

theorem length_spawnImage (plat : Platform) (base entry cleanupAddr : Nat)
    (args : List Nat) :
    (spawnImage plat base entry cleanupAddr args).length =
      calleeSlots plat + 3 + shadowWords plat + args.length
        + fillerWords args.length := by
  simp [spawnImage]
  omega

/-- The size arithmetic in the source agrees with the number of words the
spawn actually pushed below the descriptor. -/
theorem spawnSizeCode_eq_length (plat : Platform) (base entry cleanupAddr : Nat)
    (args : List Nat) :
    spawnSizeCode plat args.length =
      (spawnImage plat base entry cleanupAddr args).length := by
  rw [length_spawnImage]
  cases plat <;> simp [spawnSizeCode, calleeSlots, shadowWords, longCount] <;> omega

theorem spawnSizeCode_lt (plat : Platform) (argCount : Nat)
    (h : argCount < 128) : spawnSizeCode plat argCount < 2 ^ 56 := by
  cases plat <;>
    simp only [spawnSizeCode, fillerWords, shadowWords, longCount] <;>
    split <;> (try split) <;> omega

/-! ### Descriptor-word bit arithmetic

The descriptor word packs `0x80 | argc` into the high byte and the image
word-count into the low 56 bits; `popCoroutine` recovers them with
`>> 56`, `& 0x7F` and `&= 0x00ffffffffffffff`, and detects a virgin image
by the sign bit. -/

theorem lor_small (a b k : Nat) (hb : b < 2 ^ k) :
    (a <<< k) ||| b = a * 2 ^ k + b := by
  rw [Nat.shiftLeft_eq, Nat.mul_comm a, ← Nat.mul_add_lt_is_or hb,
    Nat.mul_comm]

theorem flag_lor (argCount : Nat) (h : argCount < 128) :
    (0x80 ||| argCount) = 128 + argCount := by
  have : (0x80 : Nat) = 1 <<< 7 := by decide
  rw [this, lor_small 1 argCount 7 (by omega)]
  omega

theorem descriptorWord_eq (argCount size : Nat) (h : argCount < 128)
    (hs : size < 2 ^ 56) :
    descriptorWord argCount size = (128 + argCount) * 2 ^ 56 + size := by
  rw [descriptorWord, flag_lor argCount h, lor_small _ _ _ hs]

theorem descriptorWord_mod (argCount size : Nat) (h : argCount < 128)
    (hs : size < 2 ^ 56) :
    descriptorWord argCount size % 2 ^ 56 = size := by
  rw [descriptorWord_eq argCount size h hs, Nat.mul_comm, Nat.mul_add_mod,
    Nat.mod_eq_of_lt hs]

theorem descriptorWord_div (argCount size : Nat) (h : argCount < 128)
    (hs : size < 2 ^ 56) :
    descriptorWord argCount size / 2 ^ 56 = 128 + argCount := by
  rw [descriptorWord_eq argCount size h hs, Nat.mul_comm,
    Nat.mul_add_div (by positivity), Nat.div_eq_of_lt hs, Nat.add_zero]

theorem descriptorWord_and_mask (argCount size : Nat) (h : argCount < 128)
    (hs : size < 2 ^ 56) :
    descriptorWord argCount size &&& 0xffffffffffffff = size := by
  have : (0xffffffffffffff : Nat) = 2 ^ 56 - 1 := by norm_num
  rw [this, Nat.and_pow_two_sub_one_eq_mod, descriptorWord_mod argCount size h hs]

/-- The virgin test `_size < 0` on the signed 64-bit descriptor: the sign
bit is set exactly on descriptors written by a spawn. -/
theorem descriptorWord_high (argCount size : Nat) (h : argCount < 128)
    (hs : size < 2 ^ 56) : 2 ^ 63 ≤ descriptorWord argCount size := by
  rw [descriptorWord_eq argCount size h hs]
  nlinarith [Nat.zero_le size]

/-- The mark recovery `((int8_t)(_size >> 56)) & 0x7F` yields the argument
count. -/
theorem descriptorWord_mark (argCount size : Nat) (h : argCount < 128)
    (hs : size < 2 ^ 56) :
    (descriptorWord argCount size >>> 56) &&& 0x7F = argCount := by
  have h127 : (0x7F : Nat) = 2 ^ 7 - 1 := by norm_num
  rw [Nat.shiftRight_eq_div_pow, descriptorWord_div argCount size h hs, h127,
    Nat.and_pow_two_sub_one_eq_mod]
  omega

theorem loadRegs_eq_map (C : List Nat) (p m : Nat) (h : m ≤ p + 1) :
    loadRegs C p m = (List.range m).map (fun i => C.getD (p + 1 - m + i) 0) := by
  induction m generalizing p with
  | zero => simp [loadRegs]
  | succ k ih =>
    rw [loadRegs, List.range_succ, List.map_append, ih (p - 1) (by omega)]
    rcases Nat.eq_zero_or_pos k with hk | hk
    · subst hk; simp
    · have hp : 1 ≤ p := by omega
      have e1 : ∀ i : Nat, p - 1 + 1 - k + i = p + 1 - (k + 1) + i := by
        intro i; omega
      simp only [e1, List.map_cons, List.map_nil]
      have e2 : p + 1 - (k + 1) + k = p := by omega
      rw [e2]

theorem map_range_getD (l : List Nat) (m : Nat) (h : m ≤ l.length) :
    (List.range m).map (fun i => l.getD i 0) = l.take m := by
  apply List.ext_getElem
  · simp [Nat.min_eq_left h]
  · intro i h1 h2
    simp only [List.getElem_map, List.getElem_range, List.getElem_take]
    rw [List.getD_eq_getElem]

theorem writeSeg_take (l : List Nat) (dest : Nat) (seg : List Nat)
    (h : dest ≤ l.length) :
    (writeSeg l dest seg).take dest = l.take dest := by
  unfold writeSeg
  rw [List.take_append_of_le_length (by simp [Nat.min_eq_left h]),
    List.take_append_of_le_length (by simp [Nat.min_eq_left h]),
    List.take_take, Nat.min_self]

theorem writeSeg_length (l : List Nat) (dest : Nat) (seg : List Nat)
    (h : dest + seg.length ≤ l.length) :
    (writeSeg l dest seg).length = l.length := by
  simp [writeSeg]
  omega

theorem writeSeg_seg (l : List Nat) (dest : Nat) (seg : List Nat)
    (h : dest ≤ l.length) :
    ((writeSeg l dest seg).drop dest).take seg.length = seg := by
  unfold writeSeg
  rw [List.drop_append_of_le_length (by simp [Nat.min_eq_left h]),
    List.drop_append_of_le_length (by simp [Nat.min_eq_left h]),
    List.drop_eq_nil_of_le (by simp [Nat.min_eq_left h]), List.nil_append,
    List.take_left]

theorem length_spawnPre (plat : Platform) (base entry cleanupAddr : Nat) :
    (spawnPre plat base entry cleanupAddr).length =
      calleeSlots plat + 3 + shadowWords plat := by
  simp [spawnPre]; omega

theorem spawnImage_decomp (plat : Platform) (base entry cleanupAddr : Nat)
    (args : List Nat) :
    spawnImage plat base entry cleanupAddr args =
      spawnPre plat base entry cleanupAddr
        ++ (args ++ List.replicate (fillerWords args.length) FILLER_VALUE) := by
  simp [spawnImage, spawnPre]

theorem excessDest_eq (plat : Platform) :
    excessDest plat = calleeSlots plat + 3 + shadowWords plat := by
  cases plat <;> rfl

theorem drop_append_len (X Y : List Nat) (k : Nat) :
    (X ++ Y).drop (X.length + k) = Y.drop k := by
  rw [← List.drop_drop, List.drop_left]

theorem getD_last (X : List Nat) (d : Nat) :
    (X ++ [d]).getD ((X ++ [d]).length - 1) 0 = d := by
  have h : (X ++ [d]).length - 1 = X.length := by simp
  rw [h, List.getD_append_right X [d] 0 X.length (Nat.le_refl _)]
  simp

/-- The fall-through register loads read a contiguous run of `m` argument
words ending at `start + m - 1` and list them in calling-convention
order. -/
theorem loadRegs_slice (C args : List Nat) (start m : Nat) (hm : m ≤ args.length)
    (hget : ∀ j, j < args.length → C.getD (start + j) 0 = args.getD j 0) :
    loadRegs C (start + m - 1) m = args.take m := by
  rcases Nat.eq_zero_or_pos m with hz | hpos
  · subst hz; simp [loadRegs]
  · rw [loadRegs_eq_map _ _ _ (by omega)]
    have hoff : start + m - 1 + 1 - m = start := by omega
    rw [hoff]
    rw [List.map_congr_left (fun i hi => hget i (by
      rw [List.mem_range] at hi; omega))]
    exact map_range_getD args m hm

/-- `popCoroutine` applied to a CSA whose top block was written by a spawn
(`invoke` or a `cobegin` loop iteration): the new cursor retreats to just
below the block, the materialized stack run is the image (with the excess
parameters relocated when the argument count exceeds the register
allotment), and the argument registers are primed, in calling-convention
order, with the first `min(argc, R)` arguments. -/
theorem pop_spawn (plat : Platform) (b e cl : Nat) (prior args : List Nat)
    (h : args.length < 128) :
    popCoroutineModel plat (prior ++ spawnWords plat b e cl args) =
      { regs := args.take (min args.length (inRegistersCount plat)),
        stack :=
          if inRegistersCount plat < args.length then
            writeSeg (spawnImage plat b e cl args) (excessDest plat)
              (args.drop (inRegistersCount plat))
          else spawnImage plat b e cl args,
        bot := prior.length,
        size := (spawnImage plat b e cl args).length,
        mark0 := args.length } := by
  have hsz := spawnSizeCode_eq_length plat b e cl args
  have hlt : (spawnImage plat b e cl args).length < 2 ^ 56 :=
    hsz ▸ spawnSizeCode_lt plat args.length h
  have hC : prior ++ spawnWords plat b e cl args =
      (prior ++ spawnImage plat b e cl args)
        ++ [descriptorWord args.length (spawnImage plat b e cl args).length] := by
    simp [spawnWords, hsz]
  rw [hC]
  simp only [popCoroutineModel]
  have hlen : ((prior ++ spawnImage plat b e cl args)
      ++ [descriptorWord args.length (spawnImage plat b e cl args).length]).length - 1
        = prior.length + (spawnImage plat b e cl args).length := by simp
  rw [hlen]
  have hdesc : ((prior ++ spawnImage plat b e cl args)
      ++ [descriptorWord args.length (spawnImage plat b e cl args).length]).getD
        (prior.length + (spawnImage plat b e cl args).length) 0
      = descriptorWord args.length (spawnImage plat b e cl args).length := by
    rw [List.getD_append_right _ _ 0 _ (by simp)]
    simp
  rw [hdesc]
  simp only [if_pos (descriptorWord_high args.length _ h hlt),
    descriptorWord_mark args.length _ h hlt,
    descriptorWord_and_mask args.length _ h hlt]
  have hbot : prior.length + (spawnImage plat b e cl args).length
      - (spawnImage plat b e cl args).length = prior.length := by omega
  rw [hbot]
  have himage : (((prior ++ spawnImage plat b e cl args)
      ++ [descriptorWord args.length (spawnImage plat b e cl args).length]).drop
        prior.length).take (spawnImage plat b e cl args).length
      = spawnImage plat b e cl args := by
    rw [List.append_assoc, List.drop_left, List.take_left]
  rw [himage]
  by_cases hz : 0 < args.length
  case neg =>
    rw [if_neg hz]
    have : args = [] := by
      cases args with
      | nil => rfl
      | cons a t => simp at hz
    subst this
    simp
  case pos =>
  rw [if_pos hz]
  have hplen := length_spawnPre plat b e cl
  have hilen := length_spawnImage plat b e cl args
  have hfill : fillerWords args.length = if args.length % 2 = 1 then 1 else 0 := by
    unfold fillerWords
    rw [if_neg (by omega)]
  have hp1 : (if args.length % 2 = 1
        then prior.length + (spawnImage plat b e cl args).length - 2
        else prior.length + (spawnImage plat b e cl args).length - 1)
      = prior.length + (calleeSlots plat + 3 + shadowWords plat)
          + args.length - 1 := by
    by_cases hodd : args.length % 2 = 1 <;>
      simp only [hodd, if_true, if_false, hilen, hfill] <;> omega
  rw [hp1]
  have hargsplit : (prior ++ spawnImage plat b e cl args)
      ++ [descriptorWord args.length (spawnImage plat b e cl args).length]
      = (prior ++ spawnPre plat b e cl)
        ++ (args ++ (List.replicate (fillerWords args.length) FILLER_VALUE
          ++ [descriptorWord args.length (spawnImage plat b e cl args).length])) := by
    rw [spawnImage_decomp]; simp
  have hgetArg : ∀ j, j < args.length →
      ((prior ++ spawnImage plat b e cl args)
        ++ [descriptorWord args.length (spawnImage plat b e cl args).length]).getD
          (prior.length + (calleeSlots plat + 3 + shadowWords plat) + j) 0
        = args.getD j 0 := by
    intro j hj
    rw [hargsplit]
    rw [List.getD_append_right _ _ 0 _
      (by simp only [List.length_append, hplen]; omega)]
    rw [show prior.length + (calleeSlots plat + 3 + shadowWords plat) + j
        - (prior ++ spawnPre plat b e cl).length = j by
      simp only [List.length_append, hplen]; omega]
    rw [List.getD_append _ _ 0 _ hj]
  have hseg : (((prior ++ spawnImage plat b e cl args)
      ++ [descriptorWord args.length (spawnImage plat b e cl args).length]).drop
        (prior.length + (calleeSlots plat + 3 + shadowWords plat)
          + inRegistersCount plat)).take
        (args.length - inRegistersCount plat)
      = args.drop (inRegistersCount plat) ∨ args.length ≤ inRegistersCount plat := by
    by_cases hR : inRegistersCount plat < args.length
    · left
      rw [hargsplit]
      have hx : prior.length + (calleeSlots plat + 3 + shadowWords plat)
            + inRegistersCount plat
          = (prior ++ spawnPre plat b e cl).length + inRegistersCount plat := by
        simp only [List.length_append, hplen]
      rw [hx, drop_append_len,
        List.drop_append_of_le_length (by omega),
        List.take_append_of_le_length (by simp only [List.length_drop]; omega),
        List.take_of_length_le (by simp only [List.length_drop]; omega)]
    · right; omega
  by_cases hR : inRegistersCount plat < args.length
  case pos =>
    simp only [if_pos hR]
    have hmin : min args.length (inRegistersCount plat)
        = inRegistersCount plat := by omega
    rw [hmin]
    have hp2 : prior.length + (calleeSlots plat + 3 + shadowWords plat)
        + args.length - 1 - (args.length - inRegistersCount plat)
        = prior.length + (calleeSlots plat + 3 + shadowWords plat)
          + inRegistersCount plat - 1 := by omega
    rw [hp2, loadRegs_slice _ args _ _ (by omega) hgetArg]
    have hRpos : 0 < inRegistersCount plat := by cases plat <;> decide
    rw [show prior.length + (calleeSlots plat + 3 + shadowWords plat)
          + inRegistersCount plat - 1 + 1
        = prior.length + (calleeSlots plat + 3 + shadowWords plat)
          + inRegistersCount plat by omega]
    rcases hseg with hseg | hbad
    · rw [hseg]
    · omega
  case neg =>
    simp only [if_neg hR]
    have hmin : min args.length (inRegistersCount plat) = args.length := by omega
    rw [hmin]
    rw [loadRegs_slice _ args _ _ (Nat.le_refl _) hgetArg]

/-- `popCoroutine` on a CSA whose top block is a previously-executed
coroutine image (descriptor flag byte zero, so the descriptor word is just
the image word-count): no registers are primed and the image is restored
verbatim. -/
theorem pop_flag0 (plat : Platform) (prior img : List Nat)
    (h : img.length < 2 ^ 56) :
    popCoroutineModel plat (prior ++ (img ++ [img.length])) =
      { regs := [], stack := img, bot := prior.length,
        size := img.length, mark0 := 0 } := by
  have hC : prior ++ (img ++ [img.length]) = (prior ++ img) ++ [img.length] := by
    simp
  rw [hC]
  simp only [popCoroutineModel]
  have hlen : ((prior ++ img) ++ [img.length]).length - 1
      = prior.length + img.length := by simp
  rw [hlen]
  have hdesc : ((prior ++ img) ++ [img.length]).getD
      (prior.length + img.length) 0 = img.length := by
    rw [List.getD_append_right _ _ 0 _ (by simp)]
    simp
  rw [hdesc]
  have hnv : ¬ (2 ^ 63 ≤ img.length) := by
    have : (2 : Nat) ^ 56 ≤ 2 ^ 63 := by norm_num
    omega
  simp only [if_neg hnv]
  rw [if_neg (by omega)]
  have hbot : prior.length + img.length - img.length = prior.length := by omega
  rw [hbot]
  have himage : (((prior ++ img) ++ [img.length]).drop prior.length).take
      img.length = img := by
    rw [List.append_assoc, List.drop_left,
      List.take_append_of_le_length (Nat.le_refl _), List.take_of_length_le (Nat.le_refl _)]
  rw [himage]

theorem pop_spawn' (plat : Platform) (b e cl : Nat) (prior args : List Nat)
    (h : args.length < 128) :
    popCoroutineModel plat (prior ++ spawnWords plat b e cl args) =
      { regs := args.take (min args.length (inRegistersCount plat)),
        stack := spawnStack plat b e cl args,
        bot := prior.length,
        size := (spawnImage plat b e cl args).length,
        mark0 := args.length } :=
  pop_spawn plat b e cl prior args h

theorem getD_take_lt (l : List Nat) (n i : Nat) (h : i < n) :
    (l.take n).getD i 0 = l.getD i 0 := by
  simp [List.getElem?_take_of_lt h]

theorem writeSeg_getD_lt (l : List Nat) (dest : Nat) (seg : List Nat)
    (i : Nat) (hi : i < dest) (hd : dest ≤ l.length) :
    (writeSeg l dest seg).getD i 0 = l.getD i 0 := by
  have h1 : (writeSeg l dest seg).getD i 0
      = ((writeSeg l dest seg).take dest).getD i 0 :=
    (getD_take_lt _ dest i hi).symm
  rw [h1, writeSeg_take l dest seg hd, getD_take_lt _ dest i hi]

theorem spawnImage_entry (plat : Platform) (b e cl : Nat) (args : List Nat) :
    (spawnImage plat b e cl args).getD (calleeSlots plat + 1) 0 = e := by
  cases plat <;>
    simp [spawnImage, calleeSlots, List.getD_append, List.getD]

theorem spawnStack_entry (plat : Platform) (b e cl : Nat) (args : List Nat) :
    (spawnStack plat b e cl args).getD (calleeSlots plat + 1) 0 = e := by
  unfold spawnStack
  split
  · rw [writeSeg_getD_lt _ _ _ _
      (by rw [excessDest_eq]; omega)
      (by rw [excessDest_eq, length_spawnImage]; omega)]
    exact spawnImage_entry plat b e cl args
  · exact spawnImage_entry plat b e cl args

theorem cobeginCsa_append (plat : Platform) (b cl : Nat)
    (specs : List (Nat × List Nat)) (t : Nat × List Nat) :
    cobeginCsa plat b cl (specs ++ [t]) =
      cobeginCsa plat b cl specs ++ spawnWords plat b t.1 cl t.2 := by
  simp [cobeginCsa]

theorem cobeginStart_append (plat : Platform) (b cl : Nat)
    (specs : List (Nat × List Nat)) (t : Nat × List Nat)
    (ht : t.2.length < 128) :
    cobeginStart plat b cl (specs ++ [t]) =
      ⟨spawnStack plat b t.1 cl t.2, cobeginCsa plat b cl specs,
        specs.length + 1⟩ := by
  unfold cobeginStart
  rw [if_neg (by simp)]
  rw [cobeginCsa_append, pop_spawn' plat b t.1 cl _ t.2 ht]
  simp [List.take_left]

theorem cleanup_cobegin_step (plat : Platform) (b cl : Nat)
    (specs : List (Nat × List Nat)) (live : List Nat) :
    cleanupModel plat ⟨live, cobeginCsa plat b cl specs, specs.length + 1⟩ =
      cobeginStart plat b cl specs := by
  unfold cleanupModel cobeginStart
  dsimp only
  rcases Nat.eq_zero_or_pos specs.length with hz | hpos
  · rw [if_pos (by omega), if_pos hz]
  · rw [if_neg (by omega), if_neg (by omega)]
    simp

/-- Running a `cobegin` ring in which every coroutine returns immediately:
the recorded entry words are the spawn list reversed, and afterwards the
ring has terminated (no live coroutine, empty CSA, `coroutineCount = 0`). -/
theorem runImmediate_cobegin (plat : Platform) (b cl : Nat)
    (specs : List (Nat × List Nat)) (h : ∀ t ∈ specs, t.2.length < 128) :
    runImmediateTrace plat (cobeginStart plat b cl specs) specs.length
        = (specs.map Prod.fst).reverse
      ∧ runImmediateState plat (cobeginStart plat b cl specs) specs.length
        = ⟨[], [], 0⟩ := by
  induction specs using List.reverseRecOn with
  | nil =>
    constructor <;>
      simp [cobeginStart, cobeginCsa, runImmediateTrace, runImmediateState]
  | append_singleton specs t IH =>
    have hlen : (specs ++ [t]).length = specs.length + 1 := by simp
    rw [hlen, cobeginStart_append plat b cl specs t (h t (by simp))]
    obtain ⟨IH1, IH2⟩ := IH (fun u hu => h u (by simp [hu]))
    rw [runImmediateTrace, runImmediateState, cleanup_cobegin_step]
    constructor
    · rw [IH1]
      unfold entryWordOf
      dsimp only
      rw [spawnStack_entry plat b t.1 cl t.2]
      simp
    · exact IH2

/-- The ring-rotation step of `coresume`: all stored blocks move up by
`size + 1` words, the yielder goes to the bottom with a flag-byte-zero
descriptor, and the block at the top — the longest-suspended coroutine —
is popped and becomes live. -/
theorem coresume_fifo (plat : Platform) (live B T : List Nat) (c : Nat)
    (hc : 1 < c) (hT : T.length < 2 ^ 56) :
    coresumeModel plat ⟨live, B ++ (T ++ [T.length]), c⟩ =
      ⟨T, live ++ [live.length] ++ B, c⟩ := by
  unfold coresumeModel
  dsimp only
  rw [if_pos hc]
  have hC : live ++ [live.length] ++ (B ++ (T ++ [T.length]))
      = (live ++ [live.length] ++ B) ++ (T ++ [T.length]) := by simp
  rw [hC, pop_flag0 plat _ T hT]
  rw [List.take_left]

theorem parseBlocks_nil : parseBlocks [] = some [] := by
  rw [parseBlocks]
  simp

theorem parseBlocks_snoc (X img : List Nat) (d : Nat)
    (hd : sizeOfDesc d = img.length) :
    parseBlocks (X ++ img ++ [d]) =
      (parseBlocks X).map (fun bs => (img, d) :: bs) := by
  have hlen : (X ++ img ++ [d]).length = X.length + img.length + 1 := by
    simp
    omega
  have hlast : (X ++ img ++ [d]).getD ((X ++ img ++ [d]).length - 1) 0 = d := by
    rw [show X ++ img ++ [d] = (X ++ img) ++ [d] from by simp]
    exact getD_last (X ++ img) d
  rw [parseBlocks]
  rw [if_neg (by simp [hlen])]
  rw [hlast, hd]
  rw [dif_pos (by omega)]
  have htk : (X ++ img ++ [d]).take ((X ++ img ++ [d]).length
      - (img.length + 1)) = X := by
    rw [hlen, show X.length + img.length + 1 - (img.length + 1) = X.length
      from by omega]
    rw [show X ++ img ++ [d] = X ++ (img ++ [d]) from by simp, List.take_left]
  have hblk : ((X ++ img ++ [d]).take ((X ++ img ++ [d]).length - 1)).drop
      ((X ++ img ++ [d]).length - 1 - img.length) = img := by
    rw [hlen, show X.length + img.length + 1 - 1 = X.length + img.length
      from by omega,
      show X ++ img ++ [d] = (X ++ img) ++ [d] from by simp,
      List.take_left' (by simp),
      show X.length + img.length - img.length = X.length from by omega,
      List.drop_left]
  rw [htk, hblk]
  cases hp : parseBlocks X <;> simp

theorem parseBlocks_inversion (C : List Nat) (bs : List (List Nat × Nat))
    (hp : parseBlocks C = some bs) :
    (C = [] ∧ bs = []) ∨
    ∃ X img d rest, C = X ++ img ++ [d] ∧ bs = (img, d) :: rest ∧
      parseBlocks X = some rest ∧ sizeOfDesc d = img.length := by
  rcases List.eq_nil_or_concat' C with rfl | ⟨Y, d0, rfl⟩
  · left
    rw [parseBlocks_nil] at hp
    exact ⟨rfl, by injection hp with hp; exact hp.symm⟩
  · right
    rw [parseBlocks] at hp
    rw [if_neg (by simp)] at hp
    rw [getD_last Y d0] at hp
    have hlenC : (Y ++ [d0]).length = Y.length + 1 := by simp
    by_cases hsz : sizeOfDesc d0 + 1 ≤ (Y ++ [d0]).length
    · rw [dif_pos hsz] at hp
      have hszY : sizeOfDesc d0 ≤ Y.length := by omega
      have hX : (Y ++ [d0]).take ((Y ++ [d0]).length - (sizeOfDesc d0 + 1))
          = Y.take (Y.length - sizeOfDesc d0) := by
        rw [hlenC, show Y.length + 1 - (sizeOfDesc d0 + 1)
          = Y.length - sizeOfDesc d0 from by omega,
          List.take_append_of_le_length (by omega)]
      have himg : ((Y ++ [d0]).take ((Y ++ [d0]).length - 1)).drop
          ((Y ++ [d0]).length - 1 - sizeOfDesc d0)
          = Y.drop (Y.length - sizeOfDesc d0) := by
        rw [hlenC, show Y.length + 1 - 1 = Y.length from by omega,
          List.take_left]
      rw [hX, himg] at hp
      cases hrec : parseBlocks (Y.take (Y.length - sizeOfDesc d0)) with
      | none => rw [hrec] at hp; cases hp
      | some bs' =>
        rw [hrec] at hp
        refine ⟨Y.take (Y.length - sizeOfDesc d0),
          Y.drop (Y.length - sizeOfDesc d0), d0, bs', ?_, ?_, hrec, ?_⟩
        · rw [show Y.take (Y.length - sizeOfDesc d0)
              ++ Y.drop (Y.length - sizeOfDesc d0) ++ [d0]
            = (Y.take (Y.length - sizeOfDesc d0)
              ++ Y.drop (Y.length - sizeOfDesc d0)) ++ [d0] from by simp,
            List.take_append_drop]
        · injection hp with hp
          exact hp.symm
        · rw [List.length_drop]
          omega
    · rw [dif_neg hsz] at hp
      cases hp

/-- A successful parse accounts for every word of the arena: the block
sizes (each plus its descriptor word) sum to the cursor distance. -/
theorem parseBlocks_sum (bs : List (List Nat × Nat)) :
    ∀ C : List Nat, parseBlocks C = some bs →
      (bs.map (fun p => p.1.length + 1)).sum = C.length := by
  induction bs with
  | nil =>
    intro C hp
    rcases parseBlocks_inversion C [] hp with ⟨rfl, _⟩ | ⟨X, img, d, rest, _, hbs, _, _⟩
    · simp
    · cases hbs
  | cons p rest IH =>
    intro C hp
    rcases parseBlocks_inversion C (p :: rest) hp with ⟨_, hbs⟩
      | ⟨X, img, d, rest', hC, hbs, hX, _⟩
    · cases hbs
    · injection hbs with h1 h2
      subst h1
      subst h2
      subst hC
      rw [List.map_cons, List.sum_cons, IH X hX]
      simp
      omega

/-- Inserting a well-sized block at the *bottom* of a parseable arena (the
`coresume` ring-rotation) keeps it parseable and appends the block at the
far (longest-suspended) end of the parse. -/
theorem parseBlocks_bottom_insert (bs : List (List Nat × Nat)) :
    ∀ (X img : List Nat) (d : Nat), parseBlocks X = some bs →
      sizeOfDesc d = img.length →
      parseBlocks ((img ++ [d]) ++ X) = some (bs ++ [(img, d)]) := by
  induction bs with
  | nil =>
    intro X img d hp hd
    rcases parseBlocks_inversion X [] hp with ⟨rfl, _⟩ | ⟨_, _, _, _, _, hbs, _, _⟩
    · rw [List.append_nil,
        show img ++ [d] = [] ++ img ++ [d] from by simp,
        parseBlocks_snoc [] img d hd, parseBlocks_nil]
      simp
    · cases hbs
  | cons p rest IH =>
    intro X img d hp hd
    rcases parseBlocks_inversion X (p :: rest) hp with ⟨_, hbs⟩
      | ⟨X', img', d', rest', hC, hbs, hX', hd'⟩
    · cases hbs
    · injection hbs with h1 h2
      subst h1
      subst h2
      subst hC
      rw [show (img ++ [d]) ++ (X' ++ img' ++ [d'])
        = ((img ++ [d]) ++ X') ++ img' ++ [d'] from by simp,
        parseBlocks_snoc _ img' d' hd', IH X' img d hX' hd]
      simp

theorem length_spawnStack (plat : Platform) (b e cl : Nat) (args : List Nat) :
    (spawnStack plat b e cl args).length =
      (spawnImage plat b e cl args).length := by
  unfold spawnStack
  split
  · apply writeSeg_length
    rw [excessDest_eq, length_spawnImage, List.length_drop]
    omega
  · rfl

theorem sizeOfDesc_spawn (plat : Platform) (argCount : Nat)
    (h : argCount < 128) :
    sizeOfDesc (descriptorWord argCount (spawnSizeCode plat argCount)) =
      spawnSizeCode plat argCount := by
  unfold sizeOfDesc
  rw [if_pos (descriptorWord_high _ _ h (spawnSizeCode_lt plat argCount h)),
    descriptorWord_and_mask _ _ h (spawnSizeCode_lt plat argCount h)]

theorem sizeOfDesc_flag0 (d : Nat) (h : d < 2 ^ 56) : sizeOfDesc d = d := by
  unfold sizeOfDesc
  rw [if_neg (by omega)]

theorem blockOK_size_lt (plat : Platform) (p : List Nat × Nat)
    (h : BlockOK plat p) : p.1.length < 2 ^ 56 := by
  rcases h with ⟨_, h⟩ | ⟨b, e, cl, args, hargs, himg, _⟩
  · exact h
  · rw [himg, ← spawnSizeCode_eq_length]
    exact spawnSizeCode_lt plat args.length hargs

/-- Popping the top block of a parseable CSA whose top block is
well-formed: the cursor retreats exactly one block, and the restored stack
run has the image's word-count. -/
theorem pop_top (plat : Platform) (C img : List Nat) (d : Nat)
    (rest : List (List Nat × Nat))
    (hp : parseBlocks C = some ((img, d) :: rest))
    (hok : BlockOK plat (img, d)) :
    ∃ X, C = X ++ img ++ [d] ∧ parseBlocks X = some rest ∧
      (popCoroutineModel plat C).bot = X.length ∧
      C.take (popCoroutineModel plat C).bot = X ∧
      (popCoroutineModel plat C).stack.length = img.length := by
  rcases parseBlocks_inversion C _ hp with ⟨_, hbs⟩
    | ⟨X, img', d', rest', hC, hbs, hX, hd⟩
  · cases hbs
  · simp only [List.cons.injEq, Prod.mk.injEq] at hbs
    obtain ⟨⟨h1, h2⟩, h3⟩ := hbs
    subst h1
    subst h2
    subst h3
    refine ⟨X, hC, hX, ?_⟩
    rcases hok with ⟨hd0, hlt⟩ | ⟨b, e, cl, args, hargs, himg, hdsc⟩
    · simp only at hd0
      have hC' : C = X ++ (img ++ [img.length]) := by rw [hC, hd0]; simp
      rw [hC', pop_flag0 plat X img hlt]
      exact ⟨rfl, List.take_left X _, rfl⟩
    · simp only at himg hdsc
      have hC' : C = X ++ spawnWords plat b e cl args := by
        rw [hC, himg, hdsc, spawnWords]
        simp
      rw [hC', pop_spawn' plat b e cl X args hargs]
      refine ⟨rfl, List.take_left X _, ?_⟩
      rw [length_spawnStack, himg]

theorem parse_cobeginCsa (plat : Platform) (b cl : Nat)
    (specs : List (Nat × List Nat)) (h : ∀ t ∈ specs, t.2.length < 128) :
    ∃ bs, parseBlocks (cobeginCsa plat b cl specs) = some bs ∧
      bs.length = specs.length ∧ ∀ p ∈ bs, BlockOK plat p := by
  induction specs using List.reverseRecOn with
  | nil => exact ⟨[], by simp [cobeginCsa, parseBlocks_nil], rfl, by simp⟩
  | append_singleton specs t IH =>
    obtain ⟨bs, hbs, hlen, hok⟩ := IH (fun u hu => h u (by simp [hu]))
    have ht : t.2.length < 128 := h t (by simp)
    refine ⟨(spawnImage plat b t.1 cl t.2,
      descriptorWord t.2.length (spawnSizeCode plat t.2.length)) :: bs,
      ?_, by simp [hlen], ?_⟩
    · rw [cobeginCsa_append,
        show cobeginCsa plat b cl specs ++ spawnWords plat b t.1 cl t.2
          = cobeginCsa plat b cl specs ++ spawnImage plat b t.1 cl t.2
            ++ [descriptorWord t.2.length (spawnSizeCode plat t.2.length)]
          from by simp [spawnWords],
        parseBlocks_snoc _ _ _
          (by rw [sizeOfDesc_spawn plat t.2.length ht,
            spawnSizeCode_eq_length plat b t.1 cl t.2]),
        hbs]
      rfl
    · intro p hp
      rcases List.mem_cons.mp hp with rfl | hp
      · exact Or.inr ⟨b, t.1, cl, t.2, ht, rfl, rfl⟩
      · exact hok p hp

/-- The kernel invariant holds in every reachable running-ring state. -/
theorem reach_inv (plat : Platform) (s : RingState) (h : Reach plat s) :
    RingInv plat s := by
  induction h with
  | start b cl specs hne hargs =>
    rcases List.eq_nil_or_concat' specs with rfl | ⟨specs', t, rfl⟩
    · cases hne rfl
    · rw [cobeginStart_append plat b cl specs' t (hargs t (by simp))]
      obtain ⟨bs, hbs, hlen, hok⟩ := parse_cobeginCsa plat b cl specs'
        (fun u hu => hargs u (by simp [hu]))
      refine ⟨?_, bs, hbs, by simp [hlen], hok⟩
      rw [length_spawnStack, ← spawnSizeCode_eq_length]
      exact spawnSizeCode_lt plat t.2.length (hargs t (by simp))
  | invoke s b e cl args hargs hs IH =>
    obtain ⟨hlive, bs, hbs, hcount, hok⟩ := IH
    refine ⟨hlive, (spawnImage plat b e cl args,
      descriptorWord args.length (spawnSizeCode plat args.length)) :: bs,
      ?_, ?_, ?_⟩
    · show parseBlocks (s.csaWords ++ spawnWords plat b e cl args) = _
      rw [show s.csaWords ++ spawnWords plat b e cl args
          = s.csaWords ++ spawnImage plat b e cl args
            ++ [descriptorWord args.length (spawnSizeCode plat args.length)]
          from by simp [spawnWords],
        parseBlocks_snoc _ _ _
          (by rw [sizeOfDesc_spawn plat args.length hargs,
            spawnSizeCode_eq_length plat b e cl args]),
        hbs]
      rfl
    · show s.count + 1 = _
      simp [hcount]
    · intro p hp
      rcases List.mem_cons.mp hp with rfl | hp
      · exact Or.inr ⟨b, e, cl, args, hargs, rfl, rfl⟩
      · exact hok p hp
  | yield s hs IH =>
    obtain ⟨hlive, bs, hbs, hcount, hok⟩ := IH
    unfold coresumeModel
    by_cases hc : 1 < s.count
    · rw [if_pos hc]
      obtain ⟨⟨img, d⟩, rest, rfl⟩ : ∃ p rest, bs = p :: rest := by
        cases bs with
        | nil => simp at hcount; omega
        | cons p r => exact ⟨p, r, rfl⟩
      have hC1 : parseBlocks ((s.live ++ [s.live.length]) ++ s.csaWords)
          = some ((img, d) :: (rest ++ [(s.live, s.live.length)])) := by
        rw [parseBlocks_bottom_insert _ _ _ _ hbs (sizeOfDesc_flag0 _ hlive)]
        simp
      have hokTop : BlockOK plat (img, d) := hok _ (by simp)
      obtain ⟨X, hCdecomp, hXparse, hbot, htake, hstacklen⟩ :=
        pop_top plat (s.live ++ [s.live.length] ++ s.csaWords) img d
          (rest ++ [(s.live, s.live.length)]) hC1 hokTop
      refine ⟨by rw [hstacklen]; exact blockOK_size_lt _ _ hokTop,
        rest ++ [(s.live, s.live.length)], ?_, ?_, ?_⟩
      · show parseBlocks ((s.live ++ [s.live.length] ++ s.csaWords).take _) = _
        rw [htake]
        exact hXparse
      · show s.count = _
        simp at hcount ⊢
        omega
      · intro p hp
        rcases List.mem_append.mp hp with hp | hp
        · exact hok p (by simp [hp])
        · rcases List.mem_singleton.mp hp with rfl
          exact Or.inl ⟨rfl, hlive⟩
    · rw [if_neg hc]
      exact ⟨hlive, bs, hbs, hcount, hok⟩
  | clean s hs hc IH =>
    obtain ⟨hlive, bs, hbs, hcount, hok⟩ := IH
    unfold cleanupModel
    rw [if_neg (by omega)]
    obtain ⟨⟨img, d⟩, rest, rfl⟩ : ∃ p rest, bs = p :: rest := by
      cases bs with
      | nil => simp at hcount; omega
      | cons p r => exact ⟨p, r, rfl⟩
    have hokTop : BlockOK plat (img, d) := hok _ (by simp)
    obtain ⟨X, hCdecomp, hXparse, hbot, htake, hstacklen⟩ :=
      pop_top plat s.csaWords img d rest hbs hokTop
    refine ⟨by rw [hstacklen]; exact blockOK_size_lt _ _ hokTop, rest, ?_, ?_, ?_⟩
    · show parseBlocks (s.csaWords.take _) = _
      rw [htake]
      exact hXparse
    · show s.count - 1 = _
      simp at hcount ⊢
      omega
    · intro p hp
      exact hok p (by simp [hp])

/-! ## The claims -/

/-- C1 (amended): for every `coresume` yield taken with more than one
coroutine active, the word-count of the saved image is
`(ring_base - 2) - (rbp_live - k)` with `k = 1` on System V, as the claim
states; on Windows x64 (Cygwin), however, the source's `_BPX -= /*3*/ -1`
adds one to the frame pointer instead of subtracting the three
callee-saved slots, so the word-count is `(ring_base - 2) - (rbp_live + 1)`
(an effective `k` of `-1`, not `3`). -/
theorem claim_C1 (base rbpLive : Int) :
    coresumeSize Platform.sysv base rbpLive
        = specCoresumeSize Platform.sysv base rbpLive
      ∧ coresumeSize Platform.win64 base rbpLive
        = (base - 2) - (rbpLive + 1) := by
  unfold coresumeSize coresumeBPX specCoresumeSize specClaimK
  constructor <;> ring

/-- C1 counterexample: at `ring_base = 10`, `rbp_live = 5` on Windows x64
the code computes an image word-count of 2 while the claimed formula with
`k = 3` gives 6. -/
theorem claim_C1_counterexample :
    ¬ coresumeSize Platform.win64 10 5 = specCoresumeSize Platform.win64 10 5 := by
  decide

/-- C2: on the first restore of a virgin spawn block with argument count
`N = args.length`, `popCoroutine` decodes `N` from the descriptor flag
byte, loads the first `min(N, R)` argument words into the ABI argument
registers in calling-convention order, relocates the excess `N - R` words
to the on-stack argument position (`baseMinusSize + 4` on System V, just
above the return slot; `baseMinusSize + 10` on Windows x64, just above the
shadow space), and so the entry point observes all `N` arguments in their
original order. -/
theorem claim_C2 (plat : Platform) (b e cl : Nat) (prior args : List Nat)
    (h : args.length < 128) :
    (popCoroutineModel plat (prior ++ spawnWords plat b e cl args)).mark0
        = args.length
      ∧ (popCoroutineModel plat (prior ++ spawnWords plat b e cl args)).regs
        = args.take (min args.length (inRegistersCount plat))
      ∧ ((popCoroutineModel plat
            (prior ++ spawnWords plat b e cl args)).stack.drop
              (excessDest plat)).take (args.length - inRegistersCount plat)
        = args.drop (inRegistersCount plat)
      ∧ (popCoroutineModel plat (prior ++ spawnWords plat b e cl args)).regs
          ++ ((popCoroutineModel plat
            (prior ++ spawnWords plat b e cl args)).stack.drop
              (excessDest plat)).take (args.length - inRegistersCount plat)
        = args := by
  rw [pop_spawn' plat b e cl prior args h]
  dsimp only
  have hslice : ((spawnStack plat b e cl args).drop (excessDest plat)).take
      (args.length - inRegistersCount plat)
      = args.drop (inRegistersCount plat) := by
    unfold spawnStack
    by_cases hR : inRegistersCount plat < args.length
    · rw [if_pos hR]
      have hlen : (args.drop (inRegistersCount plat)).length
          = args.length - inRegistersCount plat := by simp
      rw [← hlen, writeSeg_seg _ _ _
        (by rw [excessDest_eq, length_spawnImage]; omega)]
    · rw [if_neg hR,
        show args.length - inRegistersCount plat = 0 from by omega,
        List.take_zero]
      exact (List.drop_eq_nil_of_le (by omega)).symm
  refine ⟨rfl, rfl, hslice, ?_⟩
  rw [hslice]
  by_cases hR : inRegistersCount plat < args.length
  · rw [show min args.length (inRegistersCount plat) = inRegistersCount plat
      from by omega, List.take_append_drop]
  · rw [show min args.length (inRegistersCount plat) = args.length
      from by omega, List.take_of_length_le (Nat.le_refl _),
      List.drop_eq_nil_of_le (by omega), List.append_nil]

/-- C2 witness: seven arguments on System V (register allotment six). -/
theorem claim_C2_witness :
    ([10, 20, 30, 40, 50, 60, 70] : List Nat).length < 128
      ∧ ((popCoroutineModel Platform.sysv
            ([] ++ spawnWords Platform.sysv 1 2 3 [10, 20, 30, 40, 50, 60, 70])).mark0
          = ([10, 20, 30, 40, 50, 60, 70] : List Nat).length
        ∧ (popCoroutineModel Platform.sysv
            ([] ++ spawnWords Platform.sysv 1 2 3 [10, 20, 30, 40, 50, 60, 70])).regs
          = ([10, 20, 30, 40, 50, 60, 70] : List Nat).take
              (min ([10, 20, 30, 40, 50, 60, 70] : List Nat).length
                (inRegistersCount Platform.sysv))
        ∧ ((popCoroutineModel Platform.sysv
              ([] ++ spawnWords Platform.sysv 1 2 3 [10, 20, 30, 40, 50, 60, 70])).stack.drop
                (excessDest Platform.sysv)).take
              (([10, 20, 30, 40, 50, 60, 70] : List Nat).length
                - inRegistersCount Platform.sysv)
          = ([10, 20, 30, 40, 50, 60, 70] : List Nat).drop
              (inRegistersCount Platform.sysv)
        ∧ (popCoroutineModel Platform.sysv
              ([] ++ spawnWords Platform.sysv 1 2 3 [10, 20, 30, 40, 50, 60, 70])).regs
            ++ ((popCoroutineModel Platform.sysv
              ([] ++ spawnWords Platform.sysv 1 2 3 [10, 20, 30, 40, 50, 60, 70])).stack.drop
                (excessDest Platform.sysv)).take
              (([10, 20, 30, 40, 50, 60, 70] : List Nat).length
                - inRegistersCount Platform.sysv)
          = [10, 20, 30, 40, 50, 60, 70]) :=
  ⟨by decide, claim_C2 Platform.sysv 1 2 3 [] [10, 20, 30, 40, 50, 60, 70]
    (by decide)⟩

/-- C3: `cobegin` transfers control first to the coroutine given last in
the argument list; when every coroutine returns immediately without
yielding or spawning, the `n` coroutines run in reverse spawn order and
the ring then terminates (control returns to the host with
`coroutineCount = 0` and an empty CSA). -/
theorem claim_C3 (plat : Platform) (b cl : Nat)
    (specs : List (Nat × List Nat)) (h : ∀ t ∈ specs, t.2.length < 128) :
    runImmediateTrace plat (cobeginStart plat b cl specs) specs.length
        = (specs.map Prod.fst).reverse
      ∧ (runImmediateTrace plat (cobeginStart plat b cl specs)
            specs.length).head?
        = (specs.map Prod.fst).getLast?
      ∧ runImmediateState plat (cobeginStart plat b cl specs) specs.length
        = ⟨[], [], 0⟩ := by
  obtain ⟨h1, h2⟩ := runImmediate_cobegin plat b cl specs h
  exact ⟨h1, by rw [h1, List.head?_reverse], h2⟩

/-- C3 witness: three coroutines with entry words 5, 6, 7 run as 7, 6, 5. -/
theorem claim_C3_witness :
    (∀ t ∈ ([(5, []), (6, []), (7, [])] : List (Nat × List Nat)),
        t.2.length < 128)
      ∧ (runImmediateTrace Platform.win64
            (cobeginStart Platform.win64 0 0 [(5, []), (6, []), (7, [])]) 3
          = (([(5, []), (6, []), (7, [])] : List (Nat × List Nat)).map
              Prod.fst).reverse
        ∧ (runImmediateTrace Platform.win64
            (cobeginStart Platform.win64 0 0 [(5, []), (6, []), (7, [])])
              3).head?
          = (([(5, []), (6, []), (7, [])] : List (Nat × List Nat)).map
              Prod.fst).getLast?
        ∧ runImmediateState Platform.win64
            (cobeginStart Platform.win64 0 0 [(5, []), (6, []), (7, [])]) 3
          = ⟨[], [], 0⟩) :=
  ⟨by decide, claim_C3 Platform.win64 0 0 [(5, []), (6, []), (7, [])]
    (by decide)⟩

/-- C4: the ring is FIFO — a yield inserts the yielder's image (with a
flag-byte-zero descriptor) at the bottom of the CSA, shifting every stored
block up by `size + 1` words, and resumes the block at the top, the
longest-suspended coroutine; consequently three perpetually-yielding
coroutines execute in a strict three-cycle rotation. -/
theorem claim_C4 (plat : Platform) (live B T A X Y : List Nat) (c : Nat)
    (hc : 1 < c) (hT : T.length < 2 ^ 56) (hA : A.length < 2 ^ 56)
    (hX : X.length < 2 ^ 56) (hY : Y.length < 2 ^ 56) :
    coresumeModel plat ⟨live, B ++ (T ++ [T.length]), c⟩
        = ⟨T, live ++ [live.length] ++ B, c⟩
      ∧ (coresumeModel plat
          ⟨A, X ++ [X.length] ++ (Y ++ [Y.length]), c⟩).live = Y
      ∧ (coresumeModel plat (coresumeModel plat
          ⟨A, X ++ [X.length] ++ (Y ++ [Y.length]), c⟩)).live = X
      ∧ coresumeModel plat (coresumeModel plat (coresumeModel plat
          ⟨A, X ++ [X.length] ++ (Y ++ [Y.length]), c⟩))
        = ⟨A, X ++ [X.length] ++ (Y ++ [Y.length]), c⟩ := by
  have h1 := coresume_fifo plat A (X ++ [X.length]) Y c hc hY
  have h2 := coresume_fifo plat Y (A ++ [A.length]) X c hc hX
  have h3 := coresume_fifo plat X (Y ++ [Y.length]) A c hc hA
  refine ⟨coresume_fifo plat live B T c hc hT, ?_, ?_, ?_⟩
  · rw [h1]
  · rw [h1, h2]
  · rw [h1, h2, h3]

/-- C4 witness: a two-block CSA plus concrete rotation of three one-word
coroutines. -/
theorem claim_C4_witness :
    1 < 3
      ∧ ([2, 2] : List Nat).length < 2 ^ 56
      ∧ ([3] : List Nat).length < 2 ^ 56
      ∧ ([4] : List Nat).length < 2 ^ 56
      ∧ ([5] : List Nat).length < 2 ^ 56
      ∧ (coresumeModel Platform.sysv
            ⟨[1], [9, 9, 2] ++ ([2, 2] ++ [([2, 2] : List Nat).length]), 3⟩
          = ⟨[2, 2], [1] ++ [([1] : List Nat).length] ++ [9, 9, 2], 3⟩
        ∧ (coresumeModel Platform.sysv
            ⟨[3], [4] ++ [([4] : List Nat).length]
              ++ ([5] ++ [([5] : List Nat).length]), 3⟩).live = [5]
        ∧ (coresumeModel Platform.sysv (coresumeModel Platform.sysv
            ⟨[3], [4] ++ [([4] : List Nat).length]
              ++ ([5] ++ [([5] : List Nat).length]), 3⟩)).live = [4]
        ∧ coresumeModel Platform.sysv (coresumeModel Platform.sysv
            (coresumeModel Platform.sysv
              ⟨[3], [4] ++ [([4] : List Nat).length]
                ++ ([5] ++ [([5] : List Nat).length]), 3⟩))
          = ⟨[3], [4] ++ [([4] : List Nat).length]
              ++ ([5] ++ [([5] : List Nat).length]), 3⟩) :=
  ⟨by decide, by decide, by decide, by decide, by decide,
    claim_C4 Platform.sysv [1] [9, 9, 2] [2, 2] [3] [4] [5] 3
      (by decide) (by decide) (by decide) (by decide) (by decide)⟩

/-- C5: every spawn with argument count `argc` stores an image followed by
a descriptor word whose low 56 bits hold the image's word-count and whose
high byte is `0x80 | argc`; the word-count includes filler padding: two
filler words when `argc = 0`, one when `argc` is odd, none when `argc` is
positive and even. -/
theorem claim_C5 (plat : Platform) (b e cl : Nat) (args : List Nat)
    (h : args.length < 128) :
    spawnWords plat b e cl args
        = spawnImage plat b e cl args
          ++ [descriptorWord args.length (spawnSizeCode plat args.length)]
      ∧ descriptorWord args.length (spawnSizeCode plat args.length) % 2 ^ 56
        = (spawnImage plat b e cl args).length
      ∧ descriptorWord args.length (spawnSizeCode plat args.length) / 2 ^ 56
        = 0x80 + args.length
      ∧ (spawnImage plat b e cl args).length
        = calleeSlots plat + 3 + shadowWords plat + args.length
          + (if args.length = 0 then 2
             else if args.length % 2 = 1 then 1 else 0) := by
  refine ⟨rfl, ?_, ?_, ?_⟩
  · rw [descriptorWord_mod _ _ h (spawnSizeCode_lt plat _ h),
      spawnSizeCode_eq_length]
  · rw [descriptorWord_div _ _ h (spawnSizeCode_lt plat _ h)]
  · rw [length_spawnImage]
    rfl

/-- C5 witness: a Windows x64 spawn with three (odd) arguments. -/
theorem claim_C5_witness :
    ([8, 9, 10] : List Nat).length < 128
      ∧ (spawnWords Platform.win64 1 2 3 [8, 9, 10]
          = spawnImage Platform.win64 1 2 3 [8, 9, 10]
            ++ [descriptorWord ([8, 9, 10] : List Nat).length
              (spawnSizeCode Platform.win64 ([8, 9, 10] : List Nat).length)]
        ∧ descriptorWord ([8, 9, 10] : List Nat).length
            (spawnSizeCode Platform.win64 ([8, 9, 10] : List Nat).length)
              % 2 ^ 56
          = (spawnImage Platform.win64 1 2 3 [8, 9, 10]).length
        ∧ descriptorWord ([8, 9, 10] : List Nat).length
            (spawnSizeCode Platform.win64 ([8, 9, 10] : List Nat).length)
              / 2 ^ 56
          = 0x80 + ([8, 9, 10] : List Nat).length
        ∧ (spawnImage Platform.win64 1 2 3 [8, 9, 10]).length
          = calleeSlots Platform.win64 + 3 + shadowWords Platform.win64
            + ([8, 9, 10] : List Nat).length
            + (if ([8, 9, 10] : List Nat).length = 0 then 2
               else if ([8, 9, 10] : List Nat).length % 2 = 1 then 1
               else 0)) :=
  ⟨by decide, claim_C5 Platform.win64 1 2 3 [8, 9, 10] (by decide)⟩

/-- C6: in every ring state reachable by any sequence of spawn
(`invoke`/`cobegin`) and yield (`coresume`) and non-final `cleanup`
operations, the CSA parses into blocks and the sum over all stored images
of (image word-count + 1 descriptor word) equals `csavail - csa`, the
cursor's distance from the arena base. -/
theorem claim_C6 (plat : Platform) (s : RingState) (h : Reach plat s) :
    ∃ bs, parseBlocks s.csaWords = some bs
      ∧ (bs.map (fun p => p.1.length + 1)).sum = s.csaWords.length := by
  obtain ⟨_, bs, hbs, _, _⟩ := reach_inv plat s h
  exact ⟨bs, hbs, parseBlocks_sum bs s.csaWords hbs⟩

/-- C6 witness: the state right after `cobegin` starts a two-coroutine
ring. -/
theorem claim_C6_witness :
    Reach Platform.sysv (cobeginStart Platform.sysv 0 0 [(5, [1]), (6, [])])
      ∧ ∃ bs, parseBlocks
          (cobeginStart Platform.sysv 0 0 [(5, [1]), (6, [])]).csaWords
            = some bs
        ∧ (bs.map (fun p => p.1.length + 1)).sum
          = (cobeginStart Platform.sysv 0 0 [(5, [1]), (6, [])]).csaWords.length :=
  ⟨Reach.start 0 0 [(5, [1]), (6, [])] (by decide) (by decide),
    claim_C6 Platform.sysv _
      (Reach.start 0 0 [(5, [1]), (6, [])] (by decide) (by decide))⟩

/-- C7: while a ring is running, `coroutineCount` equals the number of
descriptor words stored in the CSA plus one (the live coroutine);
`getCoroutineCount` returns it, each spawn increments it by exactly one,
`coresume` leaves it unchanged, and a termination through `cleanup`
decrements it by exactly one. -/
theorem claim_C7 (plat : Platform) (s : RingState) (h : Reach plat s) :
    (∃ bs, parseBlocks s.csaWords = some bs ∧ s.count = bs.length + 1)
      ∧ getCoroutineCountModel s = s.count
      ∧ (∀ b e cl args, (invokeModel plat b e cl args s).count = s.count + 1)
      ∧ (coresumeModel plat s).count = s.count
      ∧ (cleanupModel plat s).count = s.count - 1 := by
  obtain ⟨_, bs, hbs, hcount, _⟩ := reach_inv plat s h
  refine ⟨⟨bs, hbs, hcount⟩, rfl, fun b e cl args => rfl, ?_, ?_⟩
  · unfold coresumeModel
    split <;> rfl
  · unfold cleanupModel
    split
    · next h0 => simp at h0 ⊢; omega
    · rfl

/-- C7 witness: the state right after `cobegin` starts a two-coroutine
ring. -/
theorem claim_C7_witness :
    Reach Platform.win64 (cobeginStart Platform.win64 0 0 [(5, []), (6, [2])])
      ∧ ((∃ bs, parseBlocks
            (cobeginStart Platform.win64 0 0 [(5, []), (6, [2])]).csaWords
              = some bs
          ∧ (cobeginStart Platform.win64 0 0 [(5, []), (6, [2])]).count
            = bs.length + 1)
        ∧ getCoroutineCountModel
            (cobeginStart Platform.win64 0 0 [(5, []), (6, [2])])
          = (cobeginStart Platform.win64 0 0 [(5, []), (6, [2])]).count
        ∧ (∀ b e cl args, (invokeModel Platform.win64 b e cl args
            (cobeginStart Platform.win64 0 0 [(5, []), (6, [2])])).count
          = (cobeginStart Platform.win64 0 0 [(5, []), (6, [2])]).count + 1)
        ∧ (coresumeModel Platform.win64
            (cobeginStart Platform.win64 0 0 [(5, []), (6, [2])])).count
          = (cobeginStart Platform.win64 0 0 [(5, []), (6, [2])]).count
        ∧ (cleanupModel Platform.win64
            (cobeginStart Platform.win64 0 0 [(5, []), (6, [2])])).count
          = (cobeginStart Platform.win64 0 0 [(5, []), (6, [2])]).count - 1) :=
  ⟨Reach.start 0 0 [(5, []), (6, [2])] (by decide) (by decide),
    claim_C7 Platform.win64 _
      (Reach.start 0 0 [(5, []), (6, [2])] (by decide) (by decide))⟩

/-- C8: when `coroutineCount <= 1`, `coresume` is a no-op — it performs no
context switch and leaves the live image, the CSA contents (hence the
`csavail` cursor), and `coroutineCount` unchanged. -/
theorem claim_C8 (plat : Platform) (s : RingState) (h : s.count ≤ 1) :
    coresumeModel plat s = s := by
  unfold coresumeModel
  rw [if_neg (by omega)]

/-- C8 witness: a single-coroutine ring state. -/
theorem claim_C8_witness :
    (⟨[1, 2], [3], 1⟩ : RingState).count ≤ 1
      ∧ coresumeModel Platform.sysv ⟨[1, 2], [3], 1⟩
        = (⟨[1, 2], [3], 1⟩ : RingState) :=
  ⟨by decide, claim_C8 Platform.sysv ⟨[1, 2], [3], 1⟩ (by decide)⟩

/-- C9 (amended): a failing `gettimeofday` in the interval-logging
collaborator is logged to standard output and otherwise ignored — `tally`
emits the diagnostic line but still returns (the first call clears the
`firstTime` latch; a later call still feeds a data point to
`Histogram::Add`, computed from the stale timeval).  A failing `select` in
the stdin probe is ignored but *not* logged: `kbhit` returns 0 (no byte
pending) and writes nothing to standard output. -/
theorem claim_C9 (e : Int) (s : TIHState) :
    kbhitModel SelectResult.err = (0, ([] : List LogEvent))
      ∧ (tally (GtodResult.fail e) s).2 = [LogEvent.gettimeofdayFailed e]
      ∧ (tally (GtodResult.fail e) s).1.firstTime = false
      ∧ (s.firstTime = false →
          (tally (GtodResult.fail e) s).1.added
            = s.added ++ [((s.tvNext.sec - s.tvPrev.sec) * 1000000
                + s.tvNext.usec - s.tvPrev.usec) % 4294967296]) := by
  unfold tally kbhitModel
  by_cases hf : s.firstTime <;> simp [hf]

/-- C9 counterexample: the claim asserts the diagnostic probe logs a
failing `select` to standard output, but on the error outcome `kbhit`
writes no line at all — there is no element in its emitted output. -/
theorem claim_C9_counterexample :
    ¬ ∃ l : LogEvent, l ∈ (kbhitModel SelectResult.err).2 := by
  simp [kbhitModel]

/-- C9 witness: a failing probe in the steady (non-first) state. -/
theorem claim_C9_witness :
    kbhitModel SelectResult.err = (0, ([] : List LogEvent))
      ∧ (tally (GtodResult.fail 4)
          ⟨false, ⟨1, 2⟩, ⟨3, 4⟩, [7]⟩).2 = [LogEvent.gettimeofdayFailed 4]
      ∧ (tally (GtodResult.fail 4)
          ⟨false, ⟨1, 2⟩, ⟨3, 4⟩, [7]⟩).1.firstTime = false
      ∧ ((⟨false, ⟨1, 2⟩, ⟨3, 4⟩, [7]⟩ : TIHState).firstTime = false →
          (tally (GtodResult.fail 4)
            ⟨false, ⟨1, 2⟩, ⟨3, 4⟩, [7]⟩).1.added
            = (⟨false, ⟨1, 2⟩, ⟨3, 4⟩, [7]⟩ : TIHState).added
              ++ [(((3 : Int) - 1) * 1000000 + 4 - 2) % 4294967296]) :=
  claim_C9 4 ⟨false, ⟨1, 2⟩, ⟨3, 4⟩, [7]⟩

/-- C10: `Histogram::MeanValue` divides the accumulated summation by the
(`int`-cast) sample count only when at least one data point has been added
and returns 0.0 when `n = 0`; for any representable `n` the divisor is
nonzero whenever the division is evaluated. -/
theorem claim_C10 (h : HistogramModel) (hn : h.n < 2 ^ 32) :
    (h.n = 0 → MeanValue h = 0)
      ∧ (0 < h.n → MeanValue h
          = h.summation / ((intCast32 h.n : Int) : ℚ))
      ∧ (0 < h.n → intCast32 h.n ≠ 0) := by
  refine ⟨?_, ?_, ?_⟩
  · intro h0
    unfold MeanValue
    rw [if_neg (by omega)]
  · intro h0
    unfold MeanValue
    rw [if_pos h0]
  · intro h0
    unfold intCast32
    split <;> omega

/-- C10 witness: a histogram with three samples summing to 21/2. -/
theorem claim_C10_witness :
    (⟨3, (21 : ℚ) / 2⟩ : HistogramModel).n < 2 ^ 32
      ∧ (((⟨3, (21 : ℚ) / 2⟩ : HistogramModel).n = 0 →
            MeanValue ⟨3, (21 : ℚ) / 2⟩ = 0)
        ∧ (0 < (⟨3, (21 : ℚ) / 2⟩ : HistogramModel).n →
            MeanValue ⟨3, (21 : ℚ) / 2⟩
              = (⟨3, (21 : ℚ) / 2⟩ : HistogramModel).summation
                / ((intCast32 (⟨3, (21 : ℚ) / 2⟩ : HistogramModel).n : Int) : ℚ))
        ∧ (0 < (⟨3, (21 : ℚ) / 2⟩ : HistogramModel).n →
            intCast32 (⟨3, (21 : ℚ) / 2⟩ : HistogramModel).n ≠ 0)) :=
  ⟨by decide, claim_C10 ⟨3, (21 : ℚ) / 2⟩ (by decide)⟩

end Sccor
